import Mathlib

/-!
Verification of the floatmoney linter (package lib, floatmoneylint.go).

The development shallow-embeds the linter's data model and its `run`
traversal over parsed Go source trees.  Pure helper functions
(`isFloatTypeName`, `isSuspicious`, `intersects`, `getInnerFloat`,
`isFloatExpr`) are translated directly from the Go source; the standard
library calls `strconv.ParseInt(s, 0, 64)` and `strconv.ParseFloat(s, 64)`
are modelled as boolean success predicates over the literal's text.
`ast.Inspect` is modelled as a preorder enumeration of the nodes the
callback's type switch can match (general declarations, function
declarations, fields), and the callback itself as a handler returning
either findings or a nil-pointer-dereference error.
-/

namespace FloatMoney

/-- A source span: the Pos and End positions carried by an AST node. -/
structure Span where
  pos : Nat
  stop : Nat
deriving DecidableEq, Repr

/-- An identifier node (ast.Ident): its name and its source span. -/
structure Ident where
  name : String
  span : Span
deriving DecidableEq, Repr

mutual

/-- Type and value expressions (ast.Expr), restricted to the shapes the
linter distinguishes: identifiers, basic literals, array types, struct
types, pointer types, map types, and an opaque constructor for every
other expression shape (interface, function type, selector, channel,
generic instantiation, ...), which the linter's switches never match.
Function bodies and function-literal field lists are outside the
modelled fragment. -/
inductive Expr where
  | ident (i : Ident)
  | basicLit (value : String) (span : Span)
  | arrayType (elt : Expr) (span : Span)
  | structType (fields : FieldList) (span : Span)
  | starExpr (elt : Expr) (span : Span)
  | mapType (key : Expr) (value : Expr) (span : Span)
  | otherExpr (span : Span)

/-- A list of fields; a separate inductive so that the mutual recursion
with Expr stays structural. -/
inductive FieldList where
  | nil
  | cons (f : Field) (rest : FieldList)

/-- A field node (ast.Field): names, a type expression, and an optional
tag literal's value. -/
inductive Field where
  | mk (names : List String) (type : Expr) (tag : Option String)

end

/-- The declared names of a field. -/
def Field.names : Field → List String
  | .mk ns _ _ => ns

/-- The type expression of a field. -/
def Field.type : Field → Expr
  | .mk _ t _ => t

/-- The tag literal value of a field, when present. -/
def Field.tag : Field → Option String
  | .mk _ _ tg => tg

/-- A value specifier (ast.ValueSpec): names, optional declared type,
initializer expressions. -/
structure ValueSpec where
  names : List String
  typ : Option Expr
  values : List Expr

/-- A type specifier (ast.TypeSpec): the declared type name and the
right-hand side type expression. -/
structure TypeSpec where
  name : String
  typ : Expr

/-- A general declaration (ast.GenDecl), indexed by its token.  In a
syntactically valid tree a VAR or CONST declaration carries value
specifiers and a TYPE declaration carries type specifiers, which this
representation bakes in. -/
inductive GenDeclData where
  | varDecl (specs : List ValueSpec)
  | constDecl (specs : List ValueSpec)
  | typeDecl (specs : List TypeSpec)
  | importDecl

/-- The type of a function declaration (ast.FuncType): optional
parameter and result field lists. -/
structure FuncTypeNode where
  params : Option (List Field)
  results : Option (List Field)

/-- A top-level declaration: a general declaration or a function
declaration (ast.FuncDecl, whose Type pointer may be nil). -/
inductive Decl where
  | gen (g : GenDeclData)
  | func (name : String) (ftype : Option FuncTypeNode)

/-- A parsed source file: its top-level declarations. -/
abbrev File := List Decl

/-! ### String helpers (strings.ToLower, strings.Contains) -/

/-- ASCII simple case mapping, applied character-wise: the model of
strings.ToLower for the case-insensitive matching.  (Go folds the full
Unicode simple case mapping; the linter's watchlists and identifiers
are ASCII, where the two agree.) -/
def lowerStr (s : String) : String :=
  String.mk (s.data.map Char.toLower)

/-- Substring occurrence on character lists, the model of
strings.Contains: the needle occurs at some position of the haystack.
Note listContains xs [] is true for every xs, as in Go. -/
def listContains : List Char → List Char → Bool
  | [], needle => needle.isEmpty
  | c :: rest, needle => needle.isPrefixOf (c :: rest) || listContains rest needle

/-- strings.Contains on strings. -/
def strContains (s sub : String) : Bool :=
  listContains s.data sub.data

/-! ### Model of strconv.ParseInt(s, 0, 64) success -/

/-- The numeric value of a digit or letter character, if any. -/
def digitVal (c : Char) : Option Nat :=
  if '0' ≤ c ∧ c ≤ '9' then some (c.toNat - '0'.toNat)
  else if 'a' ≤ c ∧ c ≤ 'z' then some (c.toNat - 'a'.toNat + 10)
  else if 'A' ≤ c ∧ c ≤ 'Z' then some (c.toNat - 'A'.toNat + 10)
  else none

/-- Reads a run of digits in the given base, skipping underscores
(whose placement is validated separately by underscoreOK), and returns
the value; none if any character is not a digit of the base.  An empty
run yields 0, as in Go's digit loop. -/
def digitsValAux (base : Nat) (acc : Nat) : List Char → Option Nat
  | [] => some acc
  | c :: rest =>
    if c = '_' then digitsValAux base acc rest
    else
      match digitVal c with
      | some d => if d < base then digitsValAux base (acc * base + d) rest else none
      | none => none

/-- digitsValAux starting from 0. -/
def digitsVal (base : Nat) (cs : List Char) : Option Nat :=
  digitsValAux base 0 cs

/-- One step of strconv's underscoreOK state machine.  saw is the class
of the previous character: x5E (start), 0 (digit or base prefix),
x5F (underscore), x21 (other). -/
def usOKLoop (hex : Bool) : Char → List Char → Bool
  | saw, [] => saw ≠ '_'
  | saw, c :: rest =>
    if ('0' ≤ c ∧ c ≤ '9') ∨ (hex ∧ 'a' ≤ c.toLower ∧ c.toLower ≤ 'f') then
      usOKLoop hex '0' rest
    else if c = '_' then
      saw = '0' && usOKLoop hex '_' rest
    else
      saw ≠ '_' && usOKLoop hex '!' rest

/-- strconv.underscoreOK: underscores may only separate digits (or
follow a base prefix). -/
def underscoreOK (cs : List Char) : Bool :=
  let cs1 :=
    match cs with
    | c :: rest => if c = '-' ∨ c = '+' then rest else c :: rest
    | [] => []
  match cs1 with
  | '0' :: c :: rest =>
    if c.toLower = 'b' ∨ c.toLower = 'o' ∨ c.toLower = 'x' then
      usOKLoop (c.toLower = 'x') '0' rest
    else
      usOKLoop false '^' cs1
  | _ => usOKLoop false '^' cs1

/-- strconv.ParseUint with base 0 on a sign-free string: base prefix
detection (0b/0o/0x, legacy leading 0 for octal, otherwise decimal),
then the digit loop.  Returns the value, or none on a syntax error. -/
def goParseUintBase0 : List Char → Option Nat
  | [] => none
  | '0' :: c :: d :: rest =>
    if c = 'b' ∨ c = 'B' then digitsVal 2 (d :: rest)
    else if c = 'o' ∨ c = 'O' then digitsVal 8 (d :: rest)
    else if c = 'x' ∨ c = 'X' then digitsVal 16 (d :: rest)
    else digitsVal 8 (c :: d :: rest)
  | '0' :: rest => digitsVal 8 rest
  | cs => digitsVal 10 cs

/-- Model of strconv.ParseInt(s, 0, 64) returning a nil error: optional
sign, base-0 unsigned parse, underscore validation, and the int64 range
check. -/
def goParseIntOk (s : String) : Bool :=
  match s.data with
  | [] => false
  | c :: rest0 =>
    let neg := c = '-'
    let body := if c = '-' ∨ c = '+' then rest0 else c :: rest0
    match goParseUintBase0 body with
    | none => false
    | some n =>
      (!body.contains '_' || underscoreOK body) &&
      (if neg then n ≤ 2 ^ 63 else n < 2 ^ 63)

/-! ### Model of strconv.ParseFloat(s, 64) success -/

/-- State of the mantissa scan: accumulated digit value, count of
digits after the decimal point, whether any digit was seen, whether a
dot was seen. -/
structure MantissaState where
  m : Nat
  frac : Nat
  sawDigits : Bool
  sawDot : Bool

/-- The mantissa loop of strconv's readFloat: consumes digits of the
base, underscores, and at most one decimal point; returns the state and
the unconsumed remainder. -/
def scanMantissa (base : Nat) : List Char → MantissaState → MantissaState × List Char
  | [], st => (st, [])
  | c :: rest, st =>
    if c = '_' then scanMantissa base rest st
    else if c = '.' then
      if st.sawDot then (st, c :: rest)
      else scanMantissa base rest { st with sawDot := true }
    else
      match digitVal c with
      | some d =>
        if d < base then
          scanMantissa base rest
            { st with
              m := st.m * base + d
              frac := if st.sawDot then st.frac + 1 else st.frac
              sawDigits := true }
        else (st, c :: rest)
      | none => (st, c :: rest)

/-- The exponent digit loop: decimal digits with underscores skipped. -/
def expLoop (acc : Nat) : List Char → Nat × List Char
  | [] => (acc, [])
  | c :: rest =>
    if c = '_' then expLoop acc rest
    else if c.isDigit then expLoop (acc * 10 + (c.toNat - '0'.toNat)) rest
    else (acc, c :: rest)

/-- After the exponent sign, the first character must be a digit. -/
def scanExpDigits (neg : Bool) : List Char → Option (Bool × Nat × List Char)
  | c :: rest =>
    if c.isDigit then
      let (v, r) := expLoop (c.toNat - '0'.toNat) rest
      some (neg, v, r)
    else none
  | [] => none

/-- The exponent part after the e/E/p/P marker: optional sign, then at
least one digit. -/
def scanExponent : List Char → Option (Bool × Nat × List Char)
  | '+' :: rest => scanExpDigits false rest
  | '-' :: rest => scanExpDigits true rest
  | cs => scanExpDigits false cs

/-- The smallest magnitude that strconv.ParseFloat(s, 64) rounds to
infinity (and so reports a range error): 2^1024 - 2^970, the midpoint
between the largest finite float64 and 2^1024. -/
def floatMaxThreshold : Nat := 2 ^ 1024 - 2 ^ 970

/-- Whether a decimal mantissa m times 10^ex reaches the overflow
threshold. -/
def decOverflow (m : Nat) (ex : Int) : Bool :=
  match ex with
  | .ofNat k => decide (floatMaxThreshold ≤ m * 10 ^ k)
  | .negSucc k => decide (floatMaxThreshold * 10 ^ (k + 1) ≤ m)

/-- Whether a hexadecimal mantissa m times 2^ex reaches the overflow
threshold. -/
def hexOverflow (m : Nat) (ex : Int) : Bool :=
  match ex with
  | .ofNat k => decide (floatMaxThreshold ≤ m * 2 ^ k)
  | .negSucc k => decide (floatMaxThreshold * 2 ^ (k + 1) ≤ m)

/-- Decimal float syntax after the sign: digits with at most one dot
and at least one digit, an optional e/E exponent, nothing left over;
and the value must not overflow float64. -/
def decFloatOk (cs : List Char) : Bool :=
  let (st, rest) := scanMantissa 10 cs ⟨0, 0, false, false⟩
  if st.sawDigits then
    match rest with
    | [] => !decOverflow st.m (0 - (st.frac : Int))
    | c :: rest2 =>
      if c = 'e' ∨ c = 'E' then
        match scanExponent rest2 with
        | some (neg, v, []) =>
          !decOverflow st.m ((if neg then -(v : Int) else (v : Int)) - (st.frac : Int))
        | _ => false
      else false
  else false

/-- Hexadecimal float syntax after the sign and 0x prefix: hex mantissa
digits with at most one dot and at least one digit, then a mandatory
p/P exponent in decimal, nothing left over; and no overflow. -/
def hexFloatOk (cs : List Char) : Bool :=
  let (st, rest) := scanMantissa 16 cs ⟨0, 0, false, false⟩
  if st.sawDigits then
    match rest with
    | c :: rest2 =>
      if c = 'p' ∨ c = 'P' then
        match scanExponent rest2 with
        | some (neg, v, []) =>
          !hexOverflow st.m ((if neg then -(v : Int) else (v : Int)) - 4 * (st.frac : Int))
        | _ => false
      else false
    | [] => false
  else false

/-- The special float spellings accepted by strconv: inf and infinity
with an optional sign, and unsigned nan, case-insensitively. -/
def isSpecialFloat (cs : List Char) : Bool :=
  let l := cs.map Char.toLower
  l = "inf".data || l = "+inf".data || l = "-inf".data ||
  l = "infinity".data || l = "+infinity".data || l = "-infinity".data ||
  l = "nan".data

/-- Model of strconv.ParseFloat(s, 64) returning a nil error: a special
spelling, or a decimal or hexadecimal float that consumes the whole
string, passes the underscore validation, and does not overflow.
(Go reports the overflow as ErrRange; underflow to zero is not an
error, matching this model.) -/
def goParseFloatOk (s : String) : Bool :=
  let cs := s.data
  if isSpecialFloat cs then true
  else
    let body :=
      match cs with
      | '+' :: r => r
      | '-' :: r => r
      | r => r
    let core :=
      match body with
      | '0' :: c :: rest =>
        if c = 'x' ∨ c = 'X' then hexFloatOk rest else decFloatOk body
      | _ => decFloatOk body
    core && (!cs.contains '_' || underscoreOK cs)

/-! ### The linter's pure helpers (translated from floatmoneylint.go) -/

/-- isFloatTypeName: the two float primitive type names. -/
def isFloatTypeName (typ : String) : Bool :=
  typ = "float32" || typ = "float64"

/-- isSuspicious: some watchlist entry occurs, lower-cased, inside the
lower-cased name. -/
def isSuspicious (target : List String) (name : String) : Bool :=
  target.any (fun t => strContains (lowerStr name) (lowerStr t))

/-- intersects: some searched name is suspicious. -/
def intersects (target : List String) (search : List String) : Bool :=
  search.any (fun s => isSuspicious target s)

/-- getInnerFloat: a bare float identifier resolves to itself, an array
type whose element is a float identifier resolves to the element, and
every other shape resolves to nothing. -/
def getInnerFloat : Expr → Option Ident
  | .ident i => if isFloatTypeName i.name then some i else none
  | .arrayType (.ident i) _ => if isFloatTypeName i.name then some i else none
  | _ => none

/-- getInnerFloat applied to an optional type expression: a nil type
(as on an untyped ValueSpec) matches no case of the switch. -/
def getInnerFloatOpt : Option Expr → Option Ident
  | none => none
  | some e => getInnerFloat e

/-- isFloatExpr: a basic literal whose text fails the base-0 integer
parse but passes the 64-bit float parse; every other expression is not
a float literal. -/
def isFloatExpr : Expr → Bool
  | .basicLit v _ =>
    if goParseIntOk v then false
    else if goParseFloatOk v then true
    else false
  | _ => false

/-! ### Findings and diagnostic messages -/

/-- A reported diagnostic: position span, category, message. -/
structure Finding where
  pos : Nat
  stop : Nat
  category : String
  message : String
deriving DecidableEq, Repr

/-- The common advice tail of every message. -/
def adviceTail : String := ". use https://github.com/shopspring/decimal instead"

/-- Message of the value-declaration rule when the declared type is a
float. -/
def declTypeMsg (n : String) : String :=
  "a declaration with a suspicious money-related name has " ++ n ++ " type" ++ adviceTail

/-- Message of the value-declaration rule when an initializer is a
float literal. -/
def declValueMsg (v : String) : String :=
  "a declaration with a suspicious money-related name has a float value of \"" ++ v ++ "\"" ++ adviceTail

/-- Message of the type-alias rule. -/
def aliasMsg (n : String) : String :=
  "a type with a suspicious money-related name is an alias to " ++ n ++ adviceTail

/-- Message of the struct-field rule. -/
def structFieldMsg (n : String) : String :=
  "a struct type with a suspicious money-related name has a field of " ++ n ++ " type" ++ adviceTail

/-- Message of the function-parameter rule. -/
def paramMsg (n : String) : String :=
  "a function with a suspicious money-related name has a parameter of " ++ n ++ " type" ++ adviceTail

/-- Message of the function-result rule. -/
def resultMsg (n : String) : String :=
  "a function with a suspicious money-related name has a return value of " ++ n ++ " type" ++ adviceTail

/-- Message of the field rule. -/
def fieldMsg (n : String) : String :=
  "a field with a suspicious money-related name has " ++ n ++ " type" ++ adviceTail

/-- Builds a diagnostic at a node's span. -/
def mkFinding (sp : Span) (msg : String) : Finding :=
  ⟨sp.pos, sp.stop, "floatmoney", msg⟩

/-- The runtime error raised by dereferencing a nil *ast.Ident. -/
def nilDerefMsg : String :=
  "runtime error: invalid memory address or nil pointer dereference"

/-! ### The per-node handlers of the run callback -/

/-- The first initializer expression that is a float literal. -/
def firstFloatValue : List Expr → Option Expr
  | [] => none
  | v :: rest => if isFloatExpr v then some v else firstFloatValue rest

/-- The expression a value specifier is judged by: the resolved float
type identifier if the declared type resolves, otherwise the first
float-literal initializer. -/
def pickValueExpr (vs : ValueSpec) : Option Expr :=
  match getInnerFloatOpt vs.typ with
  | some i => some (.ident i)
  | none => firstFloatValue vs.values

/-- The findings one value specifier emits once its expression is
located: one diagnostic when the names intersect the watchlist, keyed
on the expression's shape. -/
def valueFindings (watch : List String) (vs : ValueSpec) (e : Expr) : List Finding :=
  if intersects watch vs.names then
    match e with
    | .ident i => [mkFinding i.span (declTypeMsg i.name)]
    | .basicLit v sp => [mkFinding sp (declValueMsg v)]
    | _ => []
  else []

/-- The VAR/CONST loop of the callback: specifiers are processed in
order; a specifier with no float type and no float initializer returns
from the callback, dropping the remaining specifiers of the group. -/
def runValueSpecs (watch : List String) : List ValueSpec → List Finding
  | [] => []
  | vs :: rest =>
    match pickValueExpr vs with
    | none => []
    | some e => valueFindings watch vs e ++ runValueSpecs watch rest

/-- The struct-field loop of the TYPE case: fields are reported in
order; the first field whose type does not resolve to a float aborts
the loop (and, in the callback, the whole specifier group).  The Bool
records that abort. -/
def structFieldFindings : FieldList → List Finding × Bool
  | .nil => ([], false)
  | .cons f rest =>
    match getInnerFloat f.type with
    | none => ([], true)
    | some t =>
      let tl := structFieldFindings rest
      (mkFinding t.span (structFieldMsg t.name) :: tl.1, tl.2)

/-- The TYPE loop of the callback.  A specifier with a non-suspicious
name returns from the callback, dropping the remaining specifiers.  For
an array right-hand side the code tests the array expression (always
non-nil) instead of the resolution result, and then reads .Name off the
resolution result, so a suspicious array alias of a non-float element
dereferences nil. -/
def runTypeSpecs (watch : List String) : List TypeSpec → Except String (List Finding)
  | [] => .ok []
  | ts :: rest =>
    if isSuspicious watch ts.name then
      match ts.typ with
      | .ident i =>
        let fs :=
          match getInnerFloat (.ident i) with
          | some t => [mkFinding t.span (aliasMsg t.name)]
          | none => []
        match runTypeSpecs watch rest with
        | .error e => .error e
        | .ok more => .ok (fs ++ more)
      | .arrayType elt sp =>
        match getInnerFloat (.arrayType elt sp) with
        | none => .error nilDerefMsg
        | some inner =>
          match runTypeSpecs watch rest with
          | .error e => .error e
          | .ok more => .ok (mkFinding sp (aliasMsg inner.name) :: more)
      | .structType fl _ =>
        let p := structFieldFindings fl
        if p.2 then .ok p.1
        else
          match runTypeSpecs watch rest with
          | .error e => .error e
          | .ok more => .ok (p.1 ++ more)
      | _ => runTypeSpecs watch rest
    else .ok []

/-- The parameter/result loop of the FuncDecl case: fields in order;
the first field whose type does not resolve returns from the callback
(the Bool records that abort); a resolving field is reported when the
function name is suspicious or the field's own names intersect the
watchlist. -/
def funcFieldFindings (watch : List String) (fname : String) (mkMsg : String → String) :
    List Field → List Finding × Bool
  | [] => ([], false)
  | f :: rest =>
    match getInnerFloat f.type with
    | none => ([], true)
    | some t =>
      let fs :=
        if isSuspicious watch fname || intersects watch f.names then
          [mkFinding t.span (mkMsg t.name)]
        else []
      let tl := funcFieldFindings watch fname mkMsg rest
      (fs ++ tl.1, tl.2)

/-- The FuncDecl case of the callback: a nil function type returns
immediately; otherwise parameters are scanned, and results only when
the parameter loop did not abort. -/
def handleFuncDecl (watch : List String) (fname : String) : Option FuncTypeNode → List Finding
  | none => []
  | some ft =>
    let p :=
      match ft.params with
      | none => (([] : List Finding), false)
      | some ps => funcFieldFindings watch fname paramMsg ps
    if p.2 then p.1
    else
      p.1 ++
        (match ft.results with
         | none => []
         | some rs => (funcFieldFindings watch fname resultMsg rs).1)

/-- The Field case of the callback: the field's type must resolve to a
float; its names, extended with the tag literal's value when present,
must intersect the watchlist. -/
def handleField (watch : List String) (f : Field) : List Finding :=
  match getInnerFloat f.type with
  | none => []
  | some t =>
    let names := f.names ++ (match f.tag with | some tv => [tv] | none => [])
    if intersects watch names then [mkFinding t.span (fieldMsg t.name)] else []

/-! ### The traversal (ast.Inspect) -/

/-- A visited node the callback's type switch can match. -/
inductive Node where
  | gen (g : GenDeclData)
  | func (name : String) (ftype : Option FuncTypeNode)
  | fieldN (f : Field)

mutual

/-- The matchable nodes inside an expression, in preorder: the fields
of struct types, at any nesting depth. -/
def exprNodes : Expr → List Node
  | .ident _ => []
  | .basicLit _ _ => []
  | .arrayType elt _ => exprNodes elt
  | .structType fl _ => fieldListNodes fl
  | .starExpr elt _ => exprNodes elt
  | .mapType k v _ => exprNodes k ++ exprNodes v
  | .otherExpr _ => []
termination_by structural e => e

/-- The matchable nodes of a field list, in order. -/
def fieldListNodes : FieldList → List Node
  | .nil => []
  | .cons f rest => fieldNodes f ++ fieldListNodes rest
termination_by structural fl => fl

/-- A field is itself matchable, followed by the nodes of its type. -/
def fieldNodes : Field → List Node
  | .mk ns t tg => Node.fieldN (.mk ns t tg) :: exprNodes t
termination_by structural f => f

end

/-- The matchable nodes below one value specifier. -/
def valueSpecNodes (vs : ValueSpec) : List Node :=
  (match vs.typ with | some t => exprNodes t | none => []) ++
    vs.values.foldr (fun v acc => exprNodes v ++ acc) []

/-- The matchable nodes below a general declaration. -/
def genDeclChildNodes : GenDeclData → List Node
  | .varDecl specs => specs.foldr (fun vs acc => valueSpecNodes vs ++ acc) []
  | .constDecl specs => specs.foldr (fun vs acc => valueSpecNodes vs ++ acc) []
  | .typeDecl specs => specs.foldr (fun ts acc => exprNodes ts.typ ++ acc) []
  | .importDecl => []

/-- The matchable nodes below a function declaration: each parameter
and result field (and the nodes of its type), parameters first. -/
def funcChildNodes : Option FuncTypeNode → List Node
  | none => []
  | some ft =>
    (match ft.params with
     | some ps => ps.foldr (fun f acc => fieldNodes f ++ acc) []
     | none => []) ++
    (match ft.results with
     | some rs => rs.foldr (fun f acc => fieldNodes f ++ acc) []
     | none => [])

/-- The matchable nodes of a declaration, in preorder. -/
def declNodes : Decl → List Node
  | .gen g => Node.gen g :: genDeclChildNodes g
  | .func name ftype => Node.func name ftype :: funcChildNodes ftype

/-- The matchable nodes of a file, in preorder. -/
def fileNodes (f : File) : List Node :=
  f.foldr (fun d acc => declNodes d ++ acc) []

/-- The callback applied to one node. -/
def handleNode (watch : List String) : Node → Except String (List Finding)
  | .gen (.varDecl specs) => .ok (runValueSpecs watch specs)
  | .gen (.constDecl specs) => .ok (runValueSpecs watch specs)
  | .gen (.typeDecl specs) => runTypeSpecs watch specs
  | .gen .importDecl => .ok []
  | .func name ftype => .ok (handleFuncDecl watch name ftype)
  | .fieldN f => .ok (handleField watch f)

/-- The callback applied along the preorder node list; a nil
dereference aborts the traversal. -/
def processNodes (watch : List String) : List Node → Except String (List Finding)
  | [] => .ok []
  | n :: rest =>
    match handleNode watch n with
    | .error e => .error e
    | .ok fs =>
      match processNodes watch rest with
      | .error e => .error e
      | .ok more => .ok (fs ++ more)

/-- The run entry point: every file of the pass is inspected and the
findings are reported in traversal order. -/
def run (watch : List String) : List File → Except String (List Finding)
  | [] => .ok []
  | f :: rest =>
    match processNodes watch (fileNodes f) with
    | .error e => .error e
    | .ok fs =>
      match run watch rest with
      | .error e => .error e
      | .ok more => .ok (fs ++ more)

/-- The number of findings a run produced (zero after a panic). -/
def numFindings : Except String (List Finding) → Nat
  | .ok fs => fs.length
  | .error _ => 0

/-! ### Concrete source trees used in the claims -/

/-- The file holding only: func Convert(money float64) int. -/
def fileConvert : File :=
  [Decl.func "Convert"
    (some ⟨some [.mk ["money"] (.ident ⟨"float64", ⟨18, 25⟩⟩) none],
           some [.mk [] (.ident ⟨"int", ⟨27, 30⟩⟩) none]⟩)]

/-- The file holding only: func MoneyConvert(x float64) int. -/
def fileMoneyConvert : File :=
  [Decl.func "MoneyConvert"
    (some ⟨some [.mk ["x"] (.ident ⟨"float64", ⟨19, 26⟩⟩) none],
           some [.mk [] (.ident ⟨"int", ⟨28, 31⟩⟩) none]⟩)]

/-- The file holding only: type Amount struct { Value float64; Currency string }. -/
def fileAmount : File :=
  [Decl.gen (.typeDecl [⟨"Amount",
     .structType
       (.cons (.mk ["Value"] (.ident ⟨"float64", ⟨26, 33⟩⟩) none)
       (.cons (.mk ["Currency"] (.ident ⟨"string", ⟨44, 50⟩⟩) none) .nil)) ⟨12, 52⟩⟩])]

/-- The file holding only: type Price []string. -/
def filePriceString : File :=
  [Decl.gen (.typeDecl [⟨"Price", .arrayType (.ident ⟨"string", ⟨13, 19⟩⟩) ⟨11, 19⟩⟩])]

/-- The file holding only: type Price []float64.  The array expression
spans positions 11-20 and its element identifier spans 13-20. -/
def filePriceFloat : File :=
  [Decl.gen (.typeDecl [⟨"Price", .arrayType (.ident ⟨"float64", ⟨13, 20⟩⟩) ⟨11, 20⟩⟩])]

/-- The parameter list of: func moneyAdd(a float64, b float64). -/
def moneyAddParams : List Field :=
  [.mk ["a"] (.ident ⟨"float64", ⟨16, 23⟩⟩) none,
   .mk ["b"] (.ident ⟨"float64", ⟨27, 34⟩⟩) none]

/-- The file holding only: func moneyAdd(a float64, b float64). -/
def fileMoneyAdd : File :=
  [Decl.func "moneyAdd" (some ⟨some moneyAddParams, none⟩)]

/-- The parameter list of: func moneyConv(x string). -/
def moneyConvParams : List Field :=
  [.mk ["x"] (.ident ⟨"string", ⟨17, 23⟩⟩) none]

/-- The result list of: ... float64 (a lone unnamed float64 result). -/
def moneyConvResults : List Field :=
  [.mk [] (.ident ⟨"float64", ⟨25, 32⟩⟩) none]

/-! ### Helper lemmas -/

/-- With an empty watchlist no name is suspicious. -/
theorem isSuspicious_nil (name : String) : isSuspicious [] name = false := rfl

/-- With an empty watchlist no name list intersects it. -/
theorem intersects_nil : ∀ search : List String, intersects [] search = false
  | [] => rfl
  | s :: rest => by
    have ih := intersects_nil rest
    simp only [intersects, List.any_cons] at ih ⊢
    rw [show isSuspicious [] s = false from rfl]
    simpa using ih

/-- With an empty watchlist a value-specifier group emits nothing. -/
theorem runValueSpecs_nil : ∀ specs : List ValueSpec, runValueSpecs [] specs = []
  | [] => rfl
  | vs :: rest => by
    have ih := runValueSpecs_nil rest
    simp only [runValueSpecs]
    cases hp : pickValueExpr vs with
    | none => rfl
    | some e => simp [valueFindings, intersects_nil, ih]

/-- With an empty watchlist a type-specifier group emits nothing (the
suspicious-name guard fails on the first specifier). -/
theorem runTypeSpecs_nil : ∀ specs : List TypeSpec, runTypeSpecs [] specs = .ok []
  | [] => rfl
  | ts :: rest => by simp [runTypeSpecs, isSuspicious_nil]

/-- With an empty watchlist the parameter/result loop emits nothing. -/
theorem funcFieldFindings_nil (fname : String) (mkMsg : String → String) :
    ∀ fs : List Field, (funcFieldFindings [] fname mkMsg fs).1 = []
  | [] => rfl
  | f :: rest => by
    have ih := funcFieldFindings_nil fname mkMsg rest
    simp only [funcFieldFindings]
    cases hg : getInnerFloat f.type with
    | none => rfl
    | some t => simp [isSuspicious_nil, intersects_nil, ih]

/-- With an empty watchlist a function declaration emits nothing. -/
theorem handleFuncDecl_nil (fname : String) :
    ∀ ftype : Option FuncTypeNode, handleFuncDecl [] fname ftype = []
  | none => rfl
  | some ft => by
    simp only [handleFuncDecl]
    cases hps : ft.params with
    | none =>
      cases hrs : ft.results with
      | none => simp
      | some rs => simp [funcFieldFindings_nil]
    | some ps =>
      cases hrs : ft.results with
      | none => simp [funcFieldFindings_nil]
      | some rs => simp [funcFieldFindings_nil]

/-- With an empty watchlist a field emits nothing. -/
theorem handleField_nil (f : Field) : handleField [] f = [] := by
  simp only [handleField]
  cases hg : getInnerFloat f.type with
  | none => rfl
  | some t => simp [intersects_nil]

/-- With an empty watchlist every node's handler succeeds with no
findings. -/
theorem handleNode_nil : ∀ n : Node, handleNode [] n = .ok []
  | .gen (.varDecl specs) => by simp [handleNode, runValueSpecs_nil]
  | .gen (.constDecl specs) => by simp [handleNode, runValueSpecs_nil]
  | .gen (.typeDecl specs) => by simp [handleNode, runTypeSpecs_nil]
  | .gen .importDecl => rfl
  | .func name ftype => by simp [handleNode, handleFuncDecl_nil]
  | .fieldN f => by simp [handleNode, handleField_nil]

/-- With an empty watchlist every node list processes to no findings. -/
theorem processNodes_nil : ∀ ns : List Node, processNodes [] ns = .ok []
  | [] => rfl
  | n :: rest => by
    have ih := processNodes_nil rest
    simp [processNodes, handleNode_nil n, ih]

/-! ### Claim theorems -/

/-- C1: the traversal is not total: with watchlist price, the file
holding only type Price []string makes run dereference a nil pointer
in the array-alias branch instead of degrading to no match (the code
tests the array expression for nil where it means the resolution
result). -/
theorem c1_array_nonfloat_panics :
    run ["price"] [filePriceString] = .error nilDerefMsg := rfl

/-- C2 counterexample: with watchlist money, scanning the file holding
only func Convert(money float64) int does not produce exactly one
finding (the function rule and the generic field rule each report the
parameter). -/
theorem c2_counterexample :
    (numFindings (run ["money"] [fileConvert]) == 1) = false := rfl

/-- C2 amended: with watchlist money, func Convert(money float64) int
produces exactly two findings on the parameter's float type, one from
the function-parameter rule and one from the field rule at the same
span; func MoneyConvert(x float64) int produces exactly the single
function-parameter finding, because the parameter name x is not
suspicious while the function name is. -/
theorem c2_amended :
    run ["money"] [fileConvert] =
      .ok [mkFinding ⟨18, 25⟩ (paramMsg "float64"),
           mkFinding ⟨18, 25⟩ (fieldMsg "float64")] ∧
    run ["money"] [fileMoneyConvert] =
      .ok [mkFinding ⟨19, 26⟩ (paramMsg "float64")] := ⟨rfl, rfl⟩

/-- C7: with watchlist amount, the record type Amount with fields
Value float64 and Currency string produces exactly one finding,
attributed to the Value field's float type node; the Currency field
neither adds a finding nor suppresses the one for Value. -/
theorem c7_scenarioB :
    run ["amount"] [fileAmount] =
      .ok [mkFinding ⟨26, 33⟩ (structFieldMsg "float64")] := rfl

/-- C9: with an empty watchlist the engine is inert: every run over
every tree succeeds with zero findings. -/
theorem c9_empty_watchlist_inert : ∀ files : List File, run [] files = .ok []
  | [] => rfl
  | f :: rest => by
    have ih := c9_empty_watchlist_inert rest
    simp [run, processNodes_nil, ih]

/-- C3 counterexample: with watchlist money, func moneyAdd(a float64,
b float64) produces a function-rule parameter finding for the second
parameter as well (at the second parameter's type span 27-34), not
only for the first. -/
theorem c3_counterexample :
    run ["money"] [fileMoneyAdd] =
      .ok [mkFinding ⟨16, 23⟩ (paramMsg "float64"),
           mkFinding ⟨27, 34⟩ (paramMsg "float64")] := rfl

/-- C3 amended: when the function name is suspicious, the function
rule reports one finding per field of the longest prefix of the
parameter (or result) list whose types all resolve to a float; it is
the first failing resolution that stops the loop, not the first
field. -/
theorem c3_amended (watch : List String) (fname : String) (mkMsg : String → String)
    (fields : List Field) (h : isSuspicious watch fname = true) :
    (funcFieldFindings watch fname mkMsg fields).1.length =
      (fields.takeWhile (fun f => (getInnerFloat f.type).isSome)).length := by
  induction fields with
  | nil => rfl
  | cons f rest ih =>
    simp only [funcFieldFindings, List.takeWhile_cons]
    cases hg : getInnerFloat f.type with
    | none => simp [hg]
    | some t => simp [hg, h, ih]

/-- Witness for c3_amended at the moneyAdd declaration. -/
theorem c3_amended_witness :
    isSuspicious ["money"] "moneyAdd" = true ∧
    (funcFieldFindings ["money"] "moneyAdd" paramMsg moneyAddParams).1.length =
      (moneyAddParams.takeWhile (fun f => (getInnerFloat f.type).isSome)).length :=
  ⟨rfl, c3_amended ["money"] "moneyAdd" paramMsg moneyAddParams rfl⟩

/-- C4 counterexample: with watchlist price, type Price []float64
yields one finding whose span 11-20 is the array type expression's,
not the element identifier's span starting at 13. -/
theorem c4_counterexample :
    run ["price"] [filePriceFloat] =
      .ok [mkFinding ⟨11, 20⟩ (aliasMsg "float64")] ∧ ((11 : Nat) == 13) = false :=
  ⟨rfl, rfl⟩

/-- C4 amended: a suspicious type declaration whose right-hand side is
an array of a float primitive yields one finding whose span is that of
the array type expression, while the message cites the element type
name. -/
theorem c4_amended (watch : List String) (tname : String) (i : Ident) (spA : Span)
    (h : isSuspicious watch tname = true) (hf : isFloatTypeName i.name = true) :
    runTypeSpecs watch [⟨tname, .arrayType (.ident i) spA⟩] =
      .ok [mkFinding spA (aliasMsg i.name)] := by
  simp [runTypeSpecs, h, getInnerFloat, hf]

/-- Witness for c4_amended at type Price []float64. -/
theorem c4_amended_witness :
    isSuspicious ["price"] "Price" = true ∧ isFloatTypeName "float64" = true ∧
    runTypeSpecs ["price"]
        [⟨"Price", .arrayType (.ident ⟨"float64", ⟨13, 20⟩⟩) ⟨11, 20⟩⟩] =
      .ok [mkFinding ⟨11, 20⟩ (aliasMsg "float64")] :=
  ⟨rfl, rfl, c4_amended ["price"] "Price" ⟨"float64", ⟨13, 20⟩⟩ ⟨11, 20⟩ rfl rfl⟩

/-- C5: a literal whose text the base-0 integer parse accepts is never
classified as a float literal; a literal failing the float parse is
not either; the classification is exactly the conjunction of failing
the integer parse and passing the float parse; a quoted string literal
and every non-literal expression (such as the identifiers true and
false) are excluded. -/
theorem c5_isFloatExpr_spec (v : String) (sp : Span) (i : Ident) :
    (goParseIntOk v = true → isFloatExpr (.basicLit v sp) = false) ∧
    (goParseFloatOk v = false → isFloatExpr (.basicLit v sp) = false) ∧
    isFloatExpr (.basicLit v sp) = (!goParseIntOk v && goParseFloatOk v) ∧
    isFloatExpr (.basicLit "\"abc\"" sp) = false ∧
    isFloatExpr (.ident i) = false := by
  refine ⟨?_, ?_, ?_, rfl, rfl⟩ <;>
    simp only [isFloatExpr] <;>
    cases h1 : goParseIntOk v <;> cases h2 : goParseFloatOk v <;> simp [h1, h2]

/-- Witness for c5_isFloatExpr_spec at the integer literal 100. -/
theorem c5_isFloatExpr_spec_witness :
    goParseIntOk "100" = true ∧ isFloatExpr (.basicLit "100" ⟨0, 3⟩) = false :=
  ⟨rfl, (c5_isFloatExpr_spec "100" ⟨0, 3⟩ ⟨"x", ⟨0, 1⟩⟩).1 rfl⟩

/-- C6 counterexample: a watchlist holding the empty string matches
the empty candidate, because the empty string is a substring of every
string; so an empty candidate does not always map to false. -/
theorem c6_counterexample : isSuspicious [""] "" = true := rfl

/-- C6 amended: isSuspicious is exactly lower-cased substring
containment of some watchlist entry; the empty watchlist never
matches; the empty candidate never matches provided no watchlist entry
is itself empty; and matching is case-insensitive. -/
theorem c6_amended (watch : List String) (cand : String) :
    (isSuspicious watch cand = true ↔
      ∃ t ∈ watch, strContains (lowerStr cand) (lowerStr t) = true) ∧
    isSuspicious [] cand = false ∧
    ((∀ t ∈ watch, t ≠ "") → isSuspicious watch "" = false) ∧
    isSuspicious ["Price"] "userPRICEValue" = true := by
  refine ⟨by simp [isSuspicious, List.any_eq_true], rfl, ?_, rfl⟩
  intro hw
  rw [isSuspicious, List.any_eq_false]
  intro t ht
  have h1 : t ≠ "" := hw t ht
  obtain ⟨cs⟩ := t
  cases cs with
  | nil => exact absurd rfl h1
  | cons c rest => simp [strContains, lowerStr, listContains]

/-- Witness for c6_amended at a watchlist with no empty entry. -/
theorem c6_amended_witness :
    (∀ t ∈ ["Price"], t ≠ "") ∧ isSuspicious ["Price"] "" = false :=
  ⟨by decide, (c6_amended ["Price"] "x").2.2.1 (by decide)⟩

/-- C8: getInnerFloat matches a bare float primitive identifier
(returning it) and an array whose element is a float primitive
identifier (returning the element), and matches nothing else: not a
non-float identifier, not an array of a non-float identifier, not an
array of an array (even of float), and none of the other
type-expression shapes. -/
theorem c8_getInnerFloat_spec (i : Ident) (e k : Expr) (fl : FieldList)
    (v : String) (sp spB : Span) :
    (isFloatTypeName i.name = true → getInnerFloat (.ident i) = some i) ∧
    (isFloatTypeName i.name = true → getInnerFloat (.arrayType (.ident i) sp) = some i) ∧
    (isFloatTypeName i.name = false → getInnerFloat (.ident i) = none) ∧
    (isFloatTypeName i.name = false → getInnerFloat (.arrayType (.ident i) sp) = none) ∧
    getInnerFloat (.arrayType (.arrayType e spB) sp) = none ∧
    getInnerFloat (.arrayType (.structType fl spB) sp) = none ∧
    getInnerFloat (.basicLit v sp) = none ∧
    getInnerFloat (.structType fl sp) = none ∧
    getInnerFloat (.starExpr e sp) = none ∧
    getInnerFloat (.mapType k e sp) = none ∧
    getInnerFloat (.otherExpr sp) = none :=
  ⟨fun h => by simp [getInnerFloat, h], fun h => by simp [getInnerFloat, h],
   fun h => by simp [getInnerFloat, h], fun h => by simp [getInnerFloat, h],
   rfl, rfl, rfl, rfl, rfl, rfl, rfl⟩

/-- Witness for c8_getInnerFloat_spec at the float64 identifier. -/
theorem c8_getInnerFloat_spec_witness :
    isFloatTypeName "float64" = true ∧
    getInnerFloat (.ident ⟨"float64", ⟨0, 7⟩⟩) = some ⟨"float64", ⟨0, 7⟩⟩ :=
  ⟨rfl, (c8_getInnerFloat_spec ⟨"float64", ⟨0, 7⟩⟩ (.otherExpr ⟨0, 0⟩) (.otherExpr ⟨0, 0⟩)
      .nil "v" ⟨0, 0⟩ ⟨0, 0⟩).1 rfl⟩

/-- Once some parameter's type fails resolution, the loop's abort flag
is set. -/
theorem funcFieldFindings_abort (watch : List String) (fname : String)
    (mkMsg : String → String) :
    ∀ fs : List Field, fs.any (fun f => (getInnerFloat f.type).isNone) = true →
      (funcFieldFindings watch fname mkMsg fs).2 = true
  | [], h => by simp at h
  | f :: rest, h => by
    simp only [funcFieldFindings]
    cases hg : getInnerFloat f.type with
    | none => rfl
    | some t =>
      have h2 : rest.any (fun f => (getInnerFloat f.type).isNone) = true := by
        simpa [List.any_cons, hg] using h
      simp [funcFieldFindings_abort watch fname mkMsg rest h2]

/-- The findings of the parameter/result loop depend only on the
longest prefix of fields whose types all resolve. -/
theorem funcFieldFindings_prefix (watch : List String) (fname : String)
    (mkMsg : String → String) :
    ∀ fs : List Field,
      (funcFieldFindings watch fname mkMsg fs).1 =
        (funcFieldFindings watch fname mkMsg
          (fs.takeWhile (fun f => (getInnerFloat f.type).isSome))).1
  | [] => rfl
  | f :: rest => by
    simp only [List.takeWhile_cons]
    cases hg : getInnerFloat f.type with
    | none => simp [funcFieldFindings, hg]
    | some t =>
      simp [funcFieldFindings, hg, funcFieldFindings_prefix watch fname mkMsg rest]

/-- C10: a function declaration with some non-float parameter reports
nothing from its result list (so a float-typed result of such a
function never yields a return-value finding), and its parameter
findings come only from the prefix before the first non-float
parameter. -/
theorem c10_param_abort (watch : List String) (fname : String)
    (params results : List Field)
    (h : params.any (fun f => (getInnerFloat f.type).isNone) = true) :
    handleFuncDecl watch fname (some ⟨some params, some results⟩) =
      (funcFieldFindings watch fname paramMsg params).1 ∧
    (funcFieldFindings watch fname paramMsg params).1 =
      (funcFieldFindings watch fname paramMsg
        (params.takeWhile (fun f => (getInnerFloat f.type).isSome))).1 := by
  refine ⟨?_, funcFieldFindings_prefix watch fname paramMsg params⟩
  simp [handleFuncDecl, funcFieldFindings_abort watch fname paramMsg params h]

/-- Witness for c10_param_abort at func moneyConv(x string) float64. -/
theorem c10_param_abort_witness :
    moneyConvParams.any (fun f => (getInnerFloat f.type).isNone) = true ∧
    handleFuncDecl ["money"] "moneyConv" (some ⟨some moneyConvParams, some moneyConvResults⟩) =
      (funcFieldFindings ["money"] "moneyConv" paramMsg moneyConvParams).1 :=
  ⟨rfl, (c10_param_abort ["money"] "moneyConv" moneyConvParams moneyConvResults rfl).1⟩

end FloatMoney
